import Mathlib

/-!
Shallow embedding of the simple-pdf document writer (src/src/lib.rs), the
canvas content-stream emitter (src/src/canvas.rs) and the string encoder /
width metrics (src/src/encoding.rs, src/src/fontsource.rs, src/src/fontref.rs).

The output sink is modelled as a list of structured events, one event per
`write!`/`writeln!` call of the source; `tell` returns the current number of
emitted events (a monotone, non-negative file position).  I/O never fails in
the model; the page-rendering callback may fail (`PdfErr.io`), and every
`assert!` of the source is modelled as an explicit `PdfErr.assertFail` branch,
so "the assertion never fails" is "the function never returns
`PdfErr.assertFail`".
-/

/-- Modelled from the spec: the font resource identity type `fontsource::Font`
(used by `canvas.rs` and `lib.rs` via `Font::from_src`) is not under `src/`;
per spec section 3, a font resource identity is the pair
(PDF base name, base encoding name). -/
structure Font where
  name : String
  enc : String
deriving DecidableEq

/-- Modelled from the spec: `outline.rs` is not under `src/`; per spec
section 3 an outline item is a bookmark with a title and a target page,
the page object id being stamped in by `OutlineItem::set_page` once known. -/
structure OutlineItem where
  title : String
  page : Option Nat
deriving DecidableEq

/-- One event per `write!`/`writeln!` call of the source.  Canvas operators
that no claim inspects are collapsed into `canvasOp`. -/
inductive Event where
  | header
  | objHeader (id : Nat)
  | endobj
  | streamDict (lenRef : Nat)
  | colorSpace
  | endstream
  | lengthObj (n : Nat)
  | fontDict (name : String) (enc : String)
  | pageDict (parent : Nat) (fonts : List (Nat × Nat)) (w h : Rat) (content : Nat)
  | pagesDict (count : Nat) (kids : List Nat)
  | infoDict (entries : List (String × String))
  | catalogDict (outlines : Option Nat)
  | outlineItemDict (title : String) (page : Option Nat) (parent : Nat)
      (prev : Option Nat) (next : Option Nat)
  | outlinesDict (first last count : Nat)
  | xrefHeader (size : Nat)
  | xrefEntry (offset : Int)
  | trailerDict (size root : Nat) (info : Option Nat)
  | startxref (pos : Nat)
  | bt
  | et
  | dash (pattern : List Rat) (phase : Rat)
  | canvasOp (tag : Nat)
deriving DecidableEq

/-- The state of `struct Pdf` (src/src/lib.rs lines 130-137), with the
`BufWriter<File>` replaced by the event list `output`. -/
structure PdfState where
  output : List Event
  objectOffsets : List Int
  pageObjectIds : List Nat
  fontObjectIds : List (Font × Nat)
  outline : List OutlineItem
  info : List (String × String)
deriving DecidableEq

/-- Failure modes: an I/O error from the caller's callback, or a violated
`assert!` (a panic in the source). -/
inductive PdfErr where
  | io
  | assertFail
deriving DecidableEq

/-- `Pdf::tell` (lib.rs 190-192): the current output position. -/
def tell (st : PdfState) : Nat := st.output.length

/-- One `write!`/`writeln!` call appending to the buffered output. -/
def emit (st : PdfState) (e : Event) : PdfState :=
  { st with output := st.output ++ [e] }

/-- `Pdf::write_object` (lib.rs 311-325): record the offset, write the
`N 0 obj` header, run the content writer, write `endobj`. -/
def writeObject {α : Type} (st : PdfState) (id : Nat)
    (content : PdfState → Except PdfErr (α × PdfState)) :
    Except PdfErr ((α × Int) × PdfState) :=
  let offset : Int := tell st
  match content (emit st (.objHeader id)) with
  | .error e => .error e
  | .ok (a, st2) => .ok ((a, offset), emit st2 .endobj)

/-- `Pdf::write_new_object` (lib.rs 286-295): the new id is the current
length of `object_offsets`; the recorded offset is appended. -/
def writeNewObject {α : Type} (st : PdfState)
    (content : Nat → PdfState → Except PdfErr (α × PdfState)) :
    Except PdfErr (α × PdfState) :=
  match writeObject st st.objectOffsets.length (content st.objectOffsets.length) with
  | .error e => .error e
  | .ok ((a, offset), st2) =>
      .ok (a, { st2 with objectOffsets := st2.objectOffsets ++ [offset] })

/-- `Pdf::write_object_with_id` (lib.rs 297-309): fill a reserved slot,
asserting it still holds the placeholder `-1`. -/
def writeObjectWithId {α : Type} (st : PdfState) (id : Nat)
    (content : PdfState → Except PdfErr (α × PdfState)) :
    Except PdfErr (α × PdfState) :=
  if st.objectOffsets[id]? = some (-1) then
    match writeObject st id content with
    | .error e => .error e
    | .ok ((a, offset), st2) =>
        .ok (a, { st2 with objectOffsets := st2.objectOffsets.set id offset })
  else .error .assertFail

/-- `FontSource::write_object` (fontsource.rs 127-138). -/
def fontWriteObject (f : Font) (st : PdfState) : Except PdfErr (Nat × PdfState) :=
  writeNewObject st (fun fontObjectId st1 =>
    .ok (fontObjectId, emit st1 (.fontDict f.name f.enc)))

/-- First-match lookup in the `font_object_ids` map (a `HashMap` in the
source; keys are inserted at most once, so an association list is faithful). -/
def lookupFont : List (Font × Nat) → Font → Option Nat
  | [], _ => none
  | (g, oid) :: rest, f => if g = f then some oid else lookupFont rest f

/-- The font loop of `Pdf::render_page` (lib.rs 239-248): reuse the recorded
object id, or write the font object once and record it. -/
def processFonts : List (Font × Nat) → List (Nat × Nat) → PdfState →
    Except PdfErr (List (Nat × Nat) × PdfState)
  | [], acc, st => .ok (acc, st)
  | (source, fontref) :: rest, acc, st =>
    match lookupFont st.fontObjectIds source with
    | some objectId => processFonts rest (acc ++ [(fontref, objectId)]) st
    | none =>
      match fontWriteObject source st with
      | .error e => .error e
      | .ok (objectId, st1) =>
          processFonts rest (acc ++ [(fontref, objectId)])
            { st1 with fontObjectIds := st1.fontObjectIds ++ [(source, objectId)] }

/-- `Pdf::write_page_dict` (lib.rs 261-284). -/
def writePageDict (st : PdfState) (contentOid : Nat) (w h : Rat)
    (fontOids : List (Nat × Nat)) : Except PdfErr (Nat × PdfState) :=
  writeNewObject st (fun pageOid st1 =>
    .ok (pageOid, emit st1 (.pageDict 2 fontOids w h contentOid)))

/-- The content-stream phase of `Pdf::render_page` (lib.rs 209-232).  The
caller's `render_contents` closure only has append access to the output plus
its fonts/outline collections, so it is taken as data: `none` is a failing
callback, and `some (evs, fonts, outl)` is a callback that appends `evs` and
returns the given font and outline collections. -/
def renderPageStream (st : PdfState)
    (cb : Option (List Event × List (Font × Nat) × List OutlineItem)) :
    Except PdfErr ((Nat × Nat × List (Font × Nat) × List OutlineItem) × PdfState) :=
  writeNewObject st (fun contentObjectId st1 =>
    let st2 := emit st1 (.streamDict (contentObjectId + 1))
    let start := tell st2
    let st3 := emit st2 .colorSpace
    match cb with
    | none => .error .io
    | some (evs, fonts, outl) =>
      let st4 := { st3 with output := st3.output ++ evs }
      .ok ((contentObjectId, tell st4 - start, fonts, outl), emit st4 .endstream))

/-- The length-object write of `Pdf::render_page` (lib.rs 234-237), with the
`assert!(object_id_length == content_object_id + 1)`. -/
def renderPageLength (st : PdfState) (contentObjectId contentLength : Nat) :
    Except PdfErr (Unit × PdfState) :=
  writeNewObject st (fun objectIdLength st6 =>
    if objectIdLength = contentObjectId + 1 then
      .ok ((), emit st6 (.lengthObj contentLength))
    else .error .assertFail)

/-- `Pdf::render_page` (lib.rs 199-259), continued: the phases above, then
the font loop, the page dictionary, and the outline/page bookkeeping. -/
def renderPage (st : PdfState)
    (cb : Option (List Event × List (Font × Nat) × List OutlineItem))
    (w h : Rat) : Except PdfErr PdfState :=
  match renderPageStream st cb with
  | .error e => .error e
  | .ok ((contentObjectId, contentLength, fonts, outl), st5) =>
    match renderPageLength st5 contentObjectId contentLength with
    | .error e => .error e
    | .ok (_, st7) =>
      match processFonts fonts [] st7 with
      | .error e => .error e
      | .ok (fontOids, st8) =>
        match writePageDict st8 contentObjectId w h fontOids with
        | .error e => .error e
        | .ok (pageOid, st9) =>
          .ok { st9 with
                outline := st9.outline ++
                  outl.map (fun item => { item with page := some pageOid }),
                pageObjectIds := st9.pageObjectIds ++ [pageOid] }

/-- The item loop of `Pdf::write_outline` (lib.rs 430-446).
`OutlineItem::write_dictionary` (outline.rs, not under `src/`) is modelled
from the spec: each item object carries `/Parent`, the given optional
`/Prev`/`/Next` sibling references, and the item's title and page. -/
def writeOutlineItems : List OutlineItem → Nat → Nat → Nat → Nat → Nat → PdfState →
    Except PdfErr (Nat × Nat × PdfState)
  | [], _, _, _, firstId, lastId, st => .ok (firstId, lastId, st)
  | item :: rest, i, count, parentId, firstId, lastId, st =>
    match writeNewObject st (fun objectId st1 =>
        .ok (objectId, emit st1 (.outlineItemDict item.title item.page parentId
          (if i = 0 then none else some (objectId - 1))
          (if i = count - 1 then none else some (objectId + 1))))) with
    | .error e => .error e
    | .ok (id, st2) =>
        writeOutlineItems rest (i + 1) count parentId
          (if i = 0 then id else firstId) (if i = count - 1 then id else lastId) st2

/-- `Pdf::write_outline` (lib.rs 418-462). -/
def writeOutline (st : PdfState) : Except PdfErr (Option Nat × PdfState) :=
  if st.outline.isEmpty then .ok (none, st)
  else
    let parentId := st.objectOffsets.length
    let st1 := { st with objectOffsets := st.objectOffsets ++ [(-1 : Int)] }
    let count := st1.outline.length
    let items := st1.outline
    let st2 := { st1 with outline := [] }
    match writeOutlineItems items 0 count parentId 0 0 st2 with
    | .error e => .error e
    | .ok (firstId, lastId, st3) =>
      match writeObjectWithId st3 parentId (fun st4 =>
          .ok ((), emit st4 (.outlinesDict firstId lastId count))) with
      | .error e => .error e
      | .ok (_, st5) => .ok (some parentId, st5)

/-- The pages-tree write of `Pdf::finish` (lib.rs 331-343). -/
def finishPages (st : PdfState) : Except PdfErr PdfState :=
  match writeObjectWithId st 2 (fun st1 =>
      .ok ((), emit st1 (.pagesDict st1.pageObjectIds.length st1.pageObjectIds))) with
  | .error e => .error e
  | .ok (_, st2) => .ok st2

/-- The info-dictionary write of `Pdf::finish` (lib.rs 345-368): written only
when metadata exists, draining the map. -/
def finishInfo (st : PdfState) : Except PdfErr (Option Nat × PdfState) :=
  if st.info.isEmpty then .ok (none, st)
  else
    writeNewObject { st with info := [] } (fun id st1 =>
      .ok (some id, emit st1 (.infoDict st.info)))

/-- The catalog write of `Pdf::finish` (lib.rs 372-383). -/
def finishCatalog (st : PdfState) (outlinesId : Option Nat) : Except PdfErr PdfState :=
  match writeObjectWithId st 1 (fun st1 =>
      .ok ((), emit st1 (.catalogDict outlinesId))) with
  | .error e => .error e
  | .ok (_, st2) => .ok st2

/-- The xref entry loop of `Pdf::finish` (lib.rs 393-396), with the
`assert!(offset >= 0)` modelled as the `assertFail` branch. -/
def writeXrefEntries : List Int → PdfState → Except PdfErr PdfState
  | [], st => .ok st
  | offset :: rest, st =>
    if 0 ≤ offset then writeXrefEntries rest (emit st (.xrefEntry offset))
    else .error .assertFail

/-- The xref/trailer tail of `Pdf::finish` (lib.rs 384-416). -/
def finishXref (st : PdfState) (infoId : Option Nat) : Except PdfErr PdfState :=
  let sx := tell st
  let st1 := emit st (.xrefHeader st.objectOffsets.length)
  match writeXrefEntries (st1.objectOffsets.drop 1) st1 with
  | .error e => .error e
  | .ok st2 =>
    .ok (emit (emit st2 (.trailerDict st2.objectOffsets.length 1 infoId)) (.startxref sx))

/-- `Pdf::finish` (lib.rs 330-416). -/
def finish (st : PdfState) : Except PdfErr PdfState :=
  match finishPages st with
  | .error e => .error e
  | .ok st1 =>
    match finishInfo st1 with
    | .error e => .error e
    | .ok (infoId, st2) =>
      match writeOutline st2 with
      | .error e => .error e
      | .ok (outlinesId, st3) =>
        match finishCatalog st3 outlinesId with
        | .error e => .error e
        | .ok st4 => finishXref st4 infoId

/-- `Pdf::new` (lib.rs 147-160): header written, ids 0, 1, 2 reserved. -/
def pdfNew : PdfState :=
  { output := [.header]
    objectOffsets := [-1, -1, -1]
    pageObjectIds := []
    fontObjectIds := []
    outline := []
    info := [] }

/-- `BTreeMap::insert` for the metadata map of the `set_*` methods. -/
def insertInfo : List (String × String) → String → String → List (String × String)
  | [], k, v => [(k, v)]
  | (k0, v0) :: rest, k, v =>
    if k0 = k then (k, v) :: rest else (k0, v0) :: insertInfo rest k v

/-- Any of `Pdf::set_title`, `set_author`, ... (lib.rs 161-187). -/
def setInfo (st : PdfState) (k v : String) : PdfState :=
  { st with info := insertInfo st.info k v }

/-- Events producible by the canvas / text-object methods available to a
page-rendering callback (canvas.rs, textobject.rs). -/
def isCanvasEvent : Event → Bool
  | .bt => true
  | .et => true
  | .dash _ _ => true
  | .canvasOp _ => true
  | _ => false

/-- States reachable by `Pdf::new` followed by any successful sequence of
`set_*` and `render_page` calls. -/
inductive Reachable : PdfState → Prop where
  | new : Reachable pdfNew
  | set (st : PdfState) (k v : String) : Reachable st → Reachable (setInfo st k v)
  | render (st st' : PdfState) (evs : List Event) (fonts : List (Font × Nat))
      (outl : List OutlineItem) (w h : Rat) :
      Reachable st → (∀ e ∈ evs, isCanvasEvent e = true) →
      renderPage st (some (evs, fonts, outl)) w h = .ok st' → Reachable st'

/-- `Canvas::text` (canvas.rs 209-217): write `BT`, run the closure, and on
its success write `ET`; a closure error is propagated by `?` as written. -/
def canvasText {α : Type} (out : List Event)
    (cb : List Event → Except PdfErr α × List Event) :
    Except PdfErr α × List Event :=
  match cb (out ++ [Event.bt]) with
  | (.error e, out2) => (.error e, out2)
  | (.ok a, out2) => (.ok a, out2 ++ [Event.et])

/-- The validation loop of `Canvas::set_dash` (canvas.rs 71-81): `none`
models the early `return Ok(())` on a negative value, otherwise the
`valid_array` flag is returned. -/
def setDashCheck : List Rat → Bool → Option Bool
  | [], valid => some valid
  | d :: rest, valid =>
    if d < 0 then none
    else setDashCheck rest (valid || decide (0 < d))

/-- `Canvas::set_dash` (canvas.rs 64-87): silently no-op on an invalid
pattern, otherwise emit one `d` operator with the array and phase. -/
def setDash (out : List Event) (pattern : List Rat) (phase : Rat) : List Event :=
  match setDashCheck pattern false with
  | none => out
  | some false => out
  | some true => out ++ [Event.dash pattern phase]

/-- The accumulation loop of `Encoding::encode_string` (encoding.rs 201-216),
with the encoding's `unicode_to_code` map passed as a function. -/
def encodeStringGo (enc : Char → Option Nat) (acc : List Nat) :
    List Char → List Nat
  | [] => acc
  | ch :: rest =>
    match enc ch with
    | some c =>
      if c = 92 ∨ c = 40 ∨ c = 41 then encodeStringGo enc (acc ++ [92, c]) rest
      else encodeStringGo enc (acc ++ [c]) rest
    | none => encodeStringGo enc (acc ++ [63]) rest

/-- `Encoding::encode_string` (encoding.rs 201-216). -/
def encodeString (enc : Char → Option Nat) (text : List Char) : List Nat :=
  encodeStringGo enc [] text

/-- The per-character output contract of the spec: the character's code byte,
backslash-escaped for `\\`, `(` and `)`, or the single byte `?` when
unmappable. -/
def encodedChar (enc : Char → Option Nat) (ch : Char) : List Nat :=
  match enc ch with
  | some c => if c = 92 ∨ c = 40 ∨ c = 41 then [92, c] else [c]
  | none => [63]

/-- `BuiltinFont::raw_text_width` (fontsource.rs 70-76), generalized over the
font's encoding and its metrics lookup (`FontMetrics::get_width`, fallback
width 100). -/
def rawTextWidth (enc : Char → Option Nat) (width : Nat → Option Nat)
    (text : List Char) : Nat :=
  ((encodeString enc text).map (fun b => (width b).getD 100)).sum

/-- `FontRef::raw_text_width` (fontref.rs 58-67): a fold over the characters,
`encode_char` chained into `get_width` with fallback 100. -/
def fontRefRawTextWidth (enc : Char → Option Nat) (width : Nat → Option Nat)
    (text : List Char) : Nat :=
  text.foldl (fun acc ch => acc + ((enc ch).bind width).getD 100) 0

/-- `n`-fold repetition of a string, as built by the repetition loop of the
metrics test (tests/lib.rs). -/
def repeatText : Nat → List Char → List Char
  | 0, _ => []
  | n + 1, s => s ++ repeatText n s

/-- The explicit extra entries of `WIN_ANSI_ENCODING`'s `unicode_to_code`
map (encoding.rs 234-259); every listed character is above U+00FF, so the
insertion order against the base 1..=255 block is immaterial. -/
def winAnsiSpecials : List (Char × Nat) :=
  [('€', 128), ('‚', 130), ('ƒ', 131), ('„', 132), ('…', 133), ('†', 134),
   ('‡', 135), ('ˆ', 136), ('‰', 137), ('Š', 138), ('‹', 139), ('Œ', 140),
   ('Ž', 142), ('‘', 145), ('’', 146), ('“', 147), ('”', 148), ('•', 149),
   ('–', 150), ('—', 151), ('˜', 152), ('™', 153), ('š', 154), ('›', 155),
   ('ž', 158), ('Ÿ', 159)]

/-- `WIN_ANSI_ENCODING.encode_char` (encoding.rs 174-176, 226-260): codes
1..=255 map to themselves, plus the Windows-1252 extras. -/
def winAnsiEncodeChar (ch : Char) : Option Nat :=
  match winAnsiSpecials.lookup ch with
  | some c => some c
  | none => if 1 ≤ ch.toNat ∧ ch.toNat ≤ 255 then some ch.toNat else none

/-- Modelled from the spec: `fontmetrics.rs` (generated from the AFM data by
`build_metrics.rs`) is not under `src/`.  Courier is the fixed-pitch builtin
font: every encoded glyph has advance width 600, matching the src doctests
`raw_text_width("A") = 600` and `text_width(10.0, "0123456789") = 60.0`
(fontsource.rs 163-177). -/
def courierWidth : Nat → Option Nat := fun _ => some 600

/-! ### Helper lemmas: string encoding -/

deriving instance DecidableEq for Except

theorem encodeStringGo_append (enc : Char → Option Nat) :
    ∀ (text : List Char) (acc : List Nat),
    encodeStringGo enc acc text = acc ++ encodeStringGo enc [] text := by
  intro text
  induction text with
  | nil => intro acc; simp [encodeStringGo]
  | cons ch rest ih =>
    intro acc
    cases h : enc ch with
    | none =>
      simp only [encodeStringGo, h, List.nil_append]
      rw [ih (acc ++ [63]), ih [63], List.append_assoc]
    | some c =>
      by_cases hc : c = 92 ∨ c = 40 ∨ c = 41
      · simp only [encodeStringGo, h, hc, if_true, List.nil_append]
        rw [ih (acc ++ [92, c]), ih [92, c], List.append_assoc]
      · simp only [encodeStringGo, h, hc, if_false, List.nil_append]
        rw [ih (acc ++ [c]), ih [c], List.append_assoc]

theorem encodeString_flatMap (enc : Char → Option Nat) (text : List Char) :
    encodeString enc text = text.flatMap (encodedChar enc) := by
  induction text with
  | nil => rfl
  | cons ch rest ih =>
    have ih' : encodeStringGo enc [] rest = rest.flatMap (encodedChar enc) := ih
    show encodeStringGo enc [] (ch :: rest) = _
    cases h : enc ch with
    | none =>
      simp only [encodeStringGo, h, List.nil_append, List.flatMap_cons,
        encodedChar]
      rw [encodeStringGo_append, ih']
    | some c =>
      by_cases hc : c = 92 ∨ c = 40 ∨ c = 41
      · simp only [encodeStringGo, h, hc, if_true, List.nil_append,
          List.flatMap_cons, encodedChar]
        rw [encodeStringGo_append, ih']
      · simp only [encodeStringGo, h, hc, if_false, List.nil_append,
          List.flatMap_cons, encodedChar]
        rw [encodeStringGo_append, ih']

theorem encodeString_append (enc : Char → Option Nat) (s t : List Char) :
    encodeString enc (s ++ t) = encodeString enc s ++ encodeString enc t := by
  simp [encodeString_flatMap, List.flatMap_append]

theorem fontRef_foldl_shift (enc : Char → Option Nat) (w : Nat → Option Nat) :
    ∀ (text : List Char) (acc : Nat),
    text.foldl (fun acc ch => acc + ((enc ch).bind w).getD 100) acc =
      acc + text.foldl (fun acc ch => acc + ((enc ch).bind w).getD 100) 0 := by
  intro text
  induction text with
  | nil => intro acc; simp
  | cons ch rest ih =>
    intro acc
    simp only [List.foldl_cons]
    rw [ih (acc + ((enc ch).bind w).getD 100), ih (0 + ((enc ch).bind w).getD 100)]
    omega

/-! ### C7 -/

/-- C7: `Encoding::encode_string` maps each character of the input, in order,
to its code byte in the encoding; an unmappable character contributes the
single byte `?` (63), and a mapped byte that is `\\` (92), `(` (40) or
`)` (41) is preceded by an extra backslash byte. -/
theorem encode_string_per_char (enc : Char → Option Nat) (text : List Char) :
    encodeString enc text = text.flatMap (encodedChar enc) :=
  encodeString_flatMap enc text

/-! ### C9 -/

/-- C9: `raw_text_width` (fontsource.rs 70-76) is additive over
concatenation: the raw width of `s` repeated `n` times is exactly `n` times
the raw width of `s`, in exact integer arithmetic, for every encoding and
every metrics table. -/
theorem raw_text_width_additive (enc : Char → Option Nat)
    (w : Nat → Option Nat) (n : Nat) (s : List Char) :
    rawTextWidth enc w (repeatText n s) = n * rawTextWidth enc w s := by
  induction n with
  | zero => simp [repeatText, rawTextWidth, encodeString, encodeStringGo]
  | succ n ih =>
    have ih' : ((encodeString enc (repeatText n s)).map
        (fun b => (w b).getD 100)).sum = n * rawTextWidth enc w s := ih
    simp only [repeatText, rawTextWidth, encodeString_append, List.map_append,
      List.sum_append, ih']
    ring

/-! ### C10 -/

/-- C10 (counterexample): with Courier's encoding (WinAnsi on non-mac
targets) and its fixed 600-unit metrics, `BuiltinFont::raw_text_width` and
`FontRef::raw_text_width` disagree on the one-character string `(`: the
former also counts the escaping backslash byte emitted by `encode_string`. -/
theorem raw_width_disagrees_on_paren :
    rawTextWidth winAnsiEncodeChar courierWidth ['('] = 1200 ∧
    fontRefRawTextWidth winAnsiEncodeChar courierWidth ['('] = 600 ∧
    rawTextWidth winAnsiEncodeChar courierWidth ['('] ≠
      fontRefRawTextWidth winAnsiEncodeChar courierWidth ['('] := by
  decide

/-- C10 (amended): the two width functions agree on every string whose
characters are all mappable in the encoding and whose code bytes are none of
`\\` (92), `(` (40), `)` (41); in general they differ because
`BuiltinFont::raw_text_width` measures the escaped byte stream (and maps an
unmappable character to the width of `?`) while `FontRef::raw_text_width`
folds over characters with fallback 100. -/
theorem width_agree_amended (enc : Char → Option Nat) (w : Nat → Option Nat)
    (text : List Char)
    (h : ∀ ch ∈ text, ∃ b, enc ch = some b ∧ ¬(b = 92 ∨ b = 40 ∨ b = 41)) :
    rawTextWidth enc w text = fontRefRawTextWidth enc w text := by
  induction text with
  | nil => simp [rawTextWidth, fontRefRawTextWidth, encodeString, encodeStringGo]
  | cons ch rest ih =>
    obtain ⟨b, hb, hesc⟩ := h ch (by simp)
    have hrest := ih (fun c hc => h c (by simp [hc]))
    have hcons : encodeString enc (ch :: rest) = [b] ++ encodeString enc rest := by
      show encodeStringGo enc [] (ch :: rest) = _
      simp only [encodeStringGo, hb, if_neg hesc, List.nil_append]
      exact encodeStringGo_append enc rest [b]
    simp only [rawTextWidth, hcons, List.map_append, List.sum_append,
      fontRefRawTextWidth, List.foldl_cons]
    rw [fontRef_foldl_shift]
    simp only [rawTextWidth] at hrest
    simp only [fontRefRawTextWidth] at hrest
    simp [hb, hrest]

/-- C10 (witness for the amended theorem). -/
theorem width_agree_amended_w :
    rawTextWidth winAnsiEncodeChar courierWidth ['A', 'B'] =
      fontRefRawTextWidth winAnsiEncodeChar courierWidth ['A', 'B'] :=
  width_agree_amended winAnsiEncodeChar courierWidth ['A', 'B'] (by
    intro ch hch
    simp only [List.mem_cons, List.not_mem_nil, or_false] at hch
    rcases hch with rfl | rfl
    · exact ⟨65, by decide, by decide⟩
    · exact ⟨66, by decide, by decide⟩)

/-! ### C5 -/

theorem setDashCheck_none_iff (pattern : List Rat) :
    ∀ v, setDashCheck pattern v = none ↔ ∃ d ∈ pattern, d < 0 := by
  induction pattern with
  | nil => intro v; simp [setDashCheck]
  | cons d rest ih =>
    intro v
    simp only [setDashCheck]
    by_cases hd : d < 0
    · simp [hd]
    · simp only [hd, if_false, ih]
      constructor
      · rintro ⟨e, he, hlt⟩; exact ⟨e, by simp [he], hlt⟩
      · rintro ⟨e, he, hlt⟩
        rcases List.mem_cons.mp he with rfl | hmem
        · exact absurd hlt hd
        · exact ⟨e, hmem, hlt⟩

theorem setDashCheck_all_nonneg (pattern : List Rat)
    (h : ∀ d ∈ pattern, 0 ≤ d) :
    ∀ v, setDashCheck pattern v =
      some (v || pattern.any (fun d => decide (0 < d))) := by
  induction pattern with
  | nil => intro v; simp [setDashCheck]
  | cons d rest ih =>
    intro v
    have hd : ¬ d < 0 := not_lt.mpr (h d (by simp))
    simp only [setDashCheck, hd, if_false]
    rw [ih (fun e he => h e (by simp [he]))]
    simp [Bool.or_assoc]

/-- C5: `Canvas::set_dash` writes nothing when some pattern value is negative
or no pattern value is strictly positive (including the empty and all-zero
patterns), and otherwise emits exactly one `d` operator carrying the full
pattern array and the phase. -/
theorem set_dash_validity (out : List Event) (pattern : List Rat) (phase : Rat) :
    ((∃ d ∈ pattern, d < 0) ∨ (∀ d ∈ pattern, d ≤ 0) →
      setDash out pattern phase = out) ∧
    ((∀ d ∈ pattern, 0 ≤ d) → (∃ d ∈ pattern, 0 < d) →
      setDash out pattern phase = out ++ [Event.dash pattern phase]) := by
  constructor
  · intro hbad
    by_cases hneg : ∃ d ∈ pattern, d < 0
    · have := (setDashCheck_none_iff pattern false).mpr hneg
      simp [setDash, this]
    · have hpos : ∀ d ∈ pattern, 0 ≤ d := by
        intro d hd
        by_contra hlt
        exact hneg ⟨d, hd, not_le.mp hlt⟩
      have hz : ∀ d ∈ pattern, d ≤ 0 := by
        rcases hbad with hb | hb
        · exact absurd hb hneg
        · exact hb
      have hany : pattern.any (fun d => decide (0 < d)) = false := by
        rw [List.any_eq_false]
        intro d hd
        simp only [decide_eq_true_eq]
        exact not_lt.mpr (hz d hd)
      rw [setDash, setDashCheck_all_nonneg pattern hpos, hany]
      rfl
  · intro hpos hex
    have hany : pattern.any (fun d => decide (0 < d)) = true := by
      rw [List.any_eq_true]
      obtain ⟨d, hd, hlt⟩ := hex
      exact ⟨d, hd, by simpa using hlt⟩
    rw [setDash, setDashCheck_all_nonneg pattern hpos, hany]
    rfl

/-- C5 (witness): the spec's own test vectors. -/
theorem set_dash_validity_w :
    setDash [] [(0 : Rat)] 0 = [] ∧
    setDash [] [(-1 : Rat), 2] 0 = [] ∧
    setDash [] [(1 : Rat), 2] 0 = [Event.dash [1, 2] 0] :=
  ⟨(set_dash_validity [] [(0 : Rat)] 0).1 (Or.inr (by decide)),
   (set_dash_validity [] [(-1 : Rat), 2] 0).1 (Or.inl ⟨-1, by decide, by decide⟩),
   (set_dash_validity [] [(1 : Rat), 2] 0).2 (by decide) ⟨1, by decide, by decide⟩⟩

/-! ### C4 -/

/-- A page callback that fails immediately after `BT` is written. -/
def cbErrC4 : List Event → Except PdfErr Nat × List Event :=
  fun out => (.error .io, out)

/-- A text callback that writes one operator and succeeds. -/
def cbOkC4 : List Event → Except PdfErr Nat × List Event :=
  fun out => (.ok 0, out ++ [Event.canvasOp 0])

/-- C4 (counterexample): when the closure passed to `Canvas::text` fails, the
`?` operator propagates the error before the closing `ET` is written, so the
text object is left open: the output ends after `BT`. -/
theorem text_et_missing_on_error :
    canvasText [] cbErrC4 = (Except.error PdfErr.io, [Event.bt]) ∧
    Event.et ∉ (canvasText [] cbErrC4).2 := by
  decide

/-- C4 (amended): `Canvas::text` writes `BT`, invokes the closure exactly
once on the output extended by `BT`, and writes the closing `ET` only on the
closure's success path; a closure error is propagated without writing `ET`. -/
theorem text_bracketing_amended {α : Type} (out : List Event)
    (cb : List Event → Except PdfErr α × List Event) :
    (∀ a out2, cb (out ++ [Event.bt]) = (.ok a, out2) →
       canvasText out cb = (.ok a, out2 ++ [Event.et])) ∧
    (∀ e out2, cb (out ++ [Event.bt]) = (.error e, out2) →
       canvasText out cb = (.error e, out2)) := by
  constructor
  · intro a out2 h
    simp [canvasText, h]
  · intro e out2 h
    simp [canvasText, h]

/-- C4 (witness for the amended theorem). -/
theorem text_bracketing_amended_w :
    canvasText [] cbOkC4 = (Except.ok 0, [Event.bt, Event.canvasOp 0, Event.et]) :=
  (text_bracketing_amended [] cbOkC4).1 0 [Event.bt, Event.canvasOp 0] rfl

/-! ### Helper lemmas: the document writer -/

/-- Events emitted by the font loop of `render_page`. -/
def fontLoopEvent : Event → Bool
  | .objHeader _ => true
  | .fontDict _ _ => true
  | .endobj => true
  | _ => false

/-- Recognizer for font-dictionary events. -/
def isFontDict : Event → Bool
  | .fontDict _ _ => true
  | _ => false

/-- Number of font objects written for the identity `f`. -/
def countFont (evs : List Event) (f : Font) : Nat :=
  evs.count (Event.fontDict f.name f.enc)

/-- The deduplication invariant relating the emitted font objects to the
`font_object_ids` map: one font object exactly when the identity is mapped. -/
def fontInvOn (out : List Event) (m : List (Font × Nat)) : Prop :=
  ∀ f, countFont out f = if (lookupFont m f).isSome then 1 else 0

/-- `fontInvOn` for a writer state. -/
def fontInv (st : PdfState) : Prop := fontInvOn st.output st.fontObjectIds

theorem canvas_not_fontDict {e : Event} (h : isCanvasEvent e = true) :
    isFontDict e = false := by
  cases e <;> simp_all [isCanvasEvent, isFontDict]

theorem canvas_not_xref {e : Event} (h : isCanvasEvent e = true) (off : Int) :
    e ≠ Event.xrefEntry off := by
  cases e <;> simp_all [isCanvasEvent]

theorem fontLoop_not_xref {e : Event} (h : fontLoopEvent e = true) (off : Int) :
    e ≠ Event.xrefEntry off := by
  cases e <;> simp_all [fontLoopEvent]

theorem countFont_append (a b : List Event) (f : Font) :
    countFont (a ++ b) f = countFont a f + countFont b f := by
  simp [countFont, List.count_append]

theorem countFont_eq_zero {suf : List Event} (h : ∀ e ∈ suf, isFontDict e = false)
    (f : Font) : countFont suf f = 0 := by
  rw [countFont, List.count_eq_zero]
  intro hmem
  have := h _ hmem
  simp [isFontDict] at this

theorem fontInvOn_append {out : List Event} {m : List (Font × Nat)}
    {suf : List Event} (h : ∀ e ∈ suf, isFontDict e = false)
    (hinv : fontInvOn out m) : fontInvOn (out ++ suf) m := by
  intro f
  rw [countFont_append, countFont_eq_zero h, Nat.add_zero]
  exact hinv f

theorem tell_def (st : PdfState) : tell st = st.output.length := rfl

theorem lookupFont_cons (g : Font) (oid : Nat) (rest : List (Font × Nat))
    (f : Font) :
    lookupFont ((g, oid) :: rest) f = if g = f then some oid else lookupFont rest f :=
  rfl

theorem lookupFont_append_some {m m2 : List (Font × Nat)} {f : Font} {v : Nat}
    (h : lookupFont m f = some v) : lookupFont (m ++ m2) f = some v := by
  induction m with
  | nil => exact absurd h (by simp [lookupFont])
  | cons p rest ih =>
    obtain ⟨g, oid⟩ := p
    rw [lookupFont_cons] at h
    rw [List.cons_append, lookupFont_cons]
    by_cases hg : g = f
    · rw [if_pos hg] at h ⊢; exact h
    · rw [if_neg hg] at h ⊢; exact ih h

theorem lookupFont_append_none {m m2 : List (Font × Nat)} {f : Font}
    (h : lookupFont m f = none) : lookupFont (m ++ m2) f = lookupFont m2 f := by
  induction m with
  | nil => simp
  | cons p rest ih =>
    obtain ⟨g, oid⟩ := p
    rw [lookupFont_cons] at h
    rw [List.cons_append, lookupFont_cons]
    by_cases hg : g = f
    · rw [if_pos hg] at h; exact absurd h (by simp)
    · rw [if_neg hg] at h ⊢; exact ih h

theorem fontWriteObject_eq (f : Font) (st : PdfState) :
    fontWriteObject f st = .ok (st.objectOffsets.length,
      { st with
        output := st.output ++ [Event.objHeader st.objectOffsets.length,
          Event.fontDict f.name f.enc, Event.endobj],
        objectOffsets := st.objectOffsets ++ [(tell st : Int)] }) := by
  simp [fontWriteObject, writeNewObject, writeObject, emit, tell_def]

theorem writePageDict_eq (st : PdfState) (contentOid : Nat) (w h : Rat)
    (fontOids : List (Nat × Nat)) :
    writePageDict st contentOid w h fontOids = .ok (st.objectOffsets.length,
      { st with
        output := st.output ++ [Event.objHeader st.objectOffsets.length,
          Event.pageDict 2 fontOids w h contentOid, Event.endobj],
        objectOffsets := st.objectOffsets ++ [(tell st : Int)] }) := by
  simp [writePageDict, writeNewObject, writeObject, emit, tell_def]

theorem renderPageStream_none (st : PdfState) :
    renderPageStream st none = .error .io := by
  simp [renderPageStream, writeNewObject, writeObject, emit]

theorem renderPageStream_some (st : PdfState) (evs : List Event)
    (fonts : List (Font × Nat)) (outl : List OutlineItem) :
    renderPageStream st (some (evs, fonts, outl)) =
      .ok ((st.objectOffsets.length, evs.length + 1, fonts, outl),
        { st with
          output := st.output ++
            [Event.objHeader st.objectOffsets.length,
             Event.streamDict (st.objectOffsets.length + 1), Event.colorSpace] ++
            evs ++ [Event.endstream, Event.endobj],
          objectOffsets := st.objectOffsets ++ [(tell st : Int)] }) := by
  simp [renderPageStream, writeNewObject, writeObject, emit, tell_def]
  omega

theorem renderPageLength_ok (st : PdfState) (cid len : Nat)
    (h : st.objectOffsets.length = cid + 1) :
    renderPageLength st cid len = .ok ((),
      { st with
        output := st.output ++ [Event.objHeader (cid + 1), Event.lengthObj len,
          Event.endobj],
        objectOffsets := st.objectOffsets ++ [(tell st : Int)] }) := by
  simp [renderPageLength, writeNewObject, writeObject, emit, h]

theorem countFont_fontBlock (n : Nat) (source f : Font) :
    countFont [Event.objHeader n, Event.fontDict source.name source.enc,
      Event.endobj] f = if source = f then 1 else 0 := by
  by_cases hsf : source = f
  · subst hsf
    simp [countFont, List.count_cons, List.count_nil]
  · have hne : Event.fontDict source.name source.enc ≠
        Event.fontDict f.name f.enc := by
      intro hc
      injection hc with h1 h2
      exact hsf (by cases source; cases f; simp_all)
    simp [countFont, List.count_cons, List.count_nil, hsf, hne]

theorem processFonts_ok :
    ∀ (fonts : List (Font × Nat)) (acc : List (Nat × Nat)) (st : PdfState),
    ∃ refs st', processFonts fonts acc st = .ok (refs, st') ∧
      (∃ offs, st'.objectOffsets = st.objectOffsets ++ offs ∧ ∀ o ∈ offs, 0 ≤ o) ∧
      (∃ suf, st'.output = st.output ++ suf ∧ ∀ e ∈ suf, fontLoopEvent e = true) ∧
      st'.pageObjectIds = st.pageObjectIds ∧
      st'.outline = st.outline ∧
      st'.info = st.info ∧
      (∀ f oid, lookupFont st.fontObjectIds f = some oid →
        lookupFont st'.fontObjectIds f = some oid) ∧
      (fontInv st → fontInv st') ∧
      (∀ p ∈ acc, p ∈ refs) ∧
      (∀ src fr oid, (src, fr) ∈ fonts →
        lookupFont st.fontObjectIds src = some oid → (fr, oid) ∈ refs) := by
  intro fonts
  induction fonts with
  | nil =>
    intro acc st
    refine ⟨acc, st, rfl, ⟨[], by simp, by simp⟩, ⟨[], by simp, by simp⟩,
      rfl, rfl, rfl, fun f oid h => h, id, fun p hp => hp, ?_⟩
    intro src fr oid hmem
    simp at hmem
  | cons hd rest ih =>
    obtain ⟨source, fr⟩ := hd
    intro acc st
    cases hlf : lookupFont st.fontObjectIds source with
    | some oid0 =>
      obtain ⟨refs, st', hpf, hoffs, hout, hpg, hol, hinf, hlk, hfi, hacc, hfonts⟩ :=
        ih (acc ++ [(fr, oid0)]) st
      refine ⟨refs, st', ?_, hoffs, hout, hpg, hol, hinf, hlk, hfi, ?_, ?_⟩
      · simp only [processFonts, hlf]
        exact hpf
      · intro q hq
        exact hacc q (by simp [hq])
      · intro src frX oidX hmem hlsrc
        rcases List.mem_cons.mp hmem with heq | hmem'
        · rw [Prod.mk.injEq] at heq
          obtain ⟨rfl, rfl⟩ := heq
          rw [hlf] at hlsrc
          injection hlsrc with h1
          subst h1
          exact hacc (frX, oid0) (by simp)
        · exact hfonts src frX oidX hmem' hlsrc
    | none =>
      obtain ⟨refs, st', hpf, ⟨offs, hoe, hom⟩, ⟨suf, hse, hsm⟩, hpg, hol, hinf,
          hlk, hfi, hacc, hfonts⟩ :=
        ih (acc ++ [(fr, st.objectOffsets.length)])
          { st with
            output := st.output ++ [Event.objHeader st.objectOffsets.length,
              Event.fontDict source.name source.enc, Event.endobj],
            objectOffsets := st.objectOffsets ++ [(tell st : Int)],
            fontObjectIds := st.fontObjectIds ++
              [(source, st.objectOffsets.length)] }
      refine ⟨refs, st', ?_, ?_, ?_, hpg, hol, hinf, ?_, ?_, ?_, ?_⟩
      · simp only [processFonts, hlf, fontWriteObject_eq]
        exact hpf
      · refine ⟨(tell st : Int) :: offs, ?_, ?_⟩
        · rw [hoe]; simp
        · intro o ho
          rcases List.mem_cons.mp ho with rfl | ho'
          · exact Int.natCast_nonneg _
          · exact hom o ho'
      · refine ⟨[Event.objHeader st.objectOffsets.length,
          Event.fontDict source.name source.enc, Event.endobj] ++ suf, ?_, ?_⟩
        · rw [hse]; simp
        · intro e he
          rcases List.mem_append.mp he with he' | he'
          · simp only [List.mem_cons, List.not_mem_nil, or_false] at he'
            rcases he' with rfl | rfl | rfl <;> simp [fontLoopEvent]
          · exact hsm e he'
      · intro f oid h
        exact hlk f oid (lookupFont_append_some h)
      · intro hIn
        refine hfi ?_
        intro f
        show countFont (st.output ++ _) f = _
        rw [countFont_append, countFont_fontBlock]
        by_cases hsf : source = f
        · subst hsf
          have h0 : countFont st.output source = 0 := by
            have := hIn source
            rw [hlf] at this
            simpa using this
          have hl1 : lookupFont (st.fontObjectIds ++
              [(source, st.objectOffsets.length)]) source =
              some st.objectOffsets.length := by
            rw [lookupFont_append_none hlf, lookupFont_cons]
            simp
          rw [h0, hl1]
          simp
        · have hcount : countFont st.output f =
              if (lookupFont st.fontObjectIds f).isSome then 1 else 0 := hIn f
          have hl2 : lookupFont (st.fontObjectIds ++
              [(source, st.objectOffsets.length)]) f =
              lookupFont st.fontObjectIds f := by
            cases hmf : lookupFont st.fontObjectIds f with
            | some v => rw [lookupFont_append_some hmf]
            | none =>
              rw [lookupFont_append_none hmf, lookupFont_cons, if_neg hsf]
              rfl
          rw [hl2, if_neg hsf, hcount]
          simp
      · intro q hq
        exact hacc q (by simp [hq])
      · intro src fr' oid hmem hlsrc
        rcases List.mem_cons.mp hmem with heq | hmem'
        · rw [Prod.mk.injEq] at heq
          obtain ⟨rfl, rfl⟩ := heq
          rw [hlf] at hlsrc
          exact absurd hlsrc (by simp)
        · exact hfonts src fr' oid hmem' (lookupFont_append_some hlsrc)

/-- Events emitted by the post-stream tail of `render_page` (font loop and
page dictionary). -/
def pageTailEvent : Event → Bool
  | .objHeader _ => true
  | .fontDict _ _ => true
  | .endobj => true
  | .pageDict _ _ _ _ _ => true
  | _ => false

theorem fontLoop_pageTail {e : Event} (h : fontLoopEvent e = true) :
    pageTailEvent e = true := by
  cases e <;> simp_all [fontLoopEvent, pageTailEvent]

theorem pageTail_not_xref {e : Event} (h : pageTailEvent e = true) (off : Int) :
    e ≠ Event.xrefEntry off := by
  cases e <;> simp_all [pageTailEvent]

theorem pageTail_not_catalog {e : Event} (h : pageTailEvent e = true)
    (oid : Option Nat) : e ≠ Event.catalogDict oid := by
  cases e <;> simp_all [pageTailEvent]

theorem renderPage_ok (st : PdfState) (evs : List Event)
    (fonts : List (Font × Nat)) (outl : List OutlineItem) (w h : Rat) :
    ∃ st', renderPage st (some (evs, fonts, outl)) w h = .ok st' ∧
      (∃ offs, st'.objectOffsets = st.objectOffsets ++ offs ∧ ∀ o ∈ offs, 0 ≤ o) ∧
      (∃ rest, st'.output = st.output ++
          ([Event.objHeader st.objectOffsets.length,
            Event.streamDict (st.objectOffsets.length + 1), Event.colorSpace] ++
           evs ++
           [Event.endstream, Event.endobj,
            Event.objHeader (st.objectOffsets.length + 1),
            Event.lengthObj (evs.length + 1), Event.endobj]) ++ rest ∧
        ∀ e ∈ rest, pageTailEvent e = true) ∧
      st'.info = st.info ∧
      ((∀ e ∈ evs, isCanvasEvent e = true) → fontInv st → fontInv st') ∧
      (∀ f oid, lookupFont st.fontObjectIds f = some oid →
        lookupFont st'.fontObjectIds f = some oid) := by
  have h1 := renderPageStream_some st evs fonts outl
  set ST5 : PdfState := { st with
    output := st.output ++
      [Event.objHeader st.objectOffsets.length,
       Event.streamDict (st.objectOffsets.length + 1), Event.colorSpace] ++
      evs ++ [Event.endstream, Event.endobj],
    objectOffsets := st.objectOffsets ++ [(tell st : Int)] } with hST5
  have hlen5 : ST5.objectOffsets.length = st.objectOffsets.length + 1 := by
    rw [hST5]; simp
  have h2 := renderPageLength_ok ST5 st.objectOffsets.length (evs.length + 1) hlen5
  set ST7 : PdfState := { ST5 with
    output := ST5.output ++ [Event.objHeader (st.objectOffsets.length + 1),
      Event.lengthObj (evs.length + 1), Event.endobj],
    objectOffsets := ST5.objectOffsets ++ [(tell ST5 : Int)] } with hST7
  obtain ⟨refs, stp, hpf, ⟨offs, hoe, hom⟩, ⟨suf, hse, hsm⟩, hpg, hol, hinf,
      hlk, hfi, -, -⟩ := processFonts_ok fonts [] ST7
  have h3 := writePageDict_eq stp st.objectOffsets.length w h refs
  refine ⟨{ stp with
      output := stp.output ++ [Event.objHeader stp.objectOffsets.length,
        Event.pageDict 2 refs w h st.objectOffsets.length, Event.endobj],
      objectOffsets := stp.objectOffsets ++ [(tell stp : Int)],
      outline := stp.outline ++
        outl.map (fun item => { item with page := some stp.objectOffsets.length }),
      pageObjectIds := stp.pageObjectIds ++ [stp.objectOffsets.length] },
    ?_, ?_, ?_, ?_, ?_, ?_⟩
  · simp only [renderPage, h1, h2, hpf, h3]
  · refine ⟨(tell st : Int) :: (tell ST5 : Int) :: (offs ++ [(tell stp : Int)]),
      ?_, ?_⟩
    · have hstp : stp.objectOffsets =
          st.objectOffsets ++ ((tell st : Int) :: (tell ST5 : Int) :: offs) := by
        rw [hoe, hST7, hST5]
        simp
      simp only [hstp]
      simp
    · intro o ho
      simp only [List.mem_cons, List.mem_append, List.mem_singleton,
        List.not_mem_nil, or_false] at ho
      rcases ho with rfl | rfl | ho' | rfl
      · exact Int.natCast_nonneg _
      · exact Int.natCast_nonneg _
      · exact hom o ho'
      · exact Int.natCast_nonneg _
  · refine ⟨suf ++ [Event.objHeader stp.objectOffsets.length,
      Event.pageDict 2 refs w h st.objectOffsets.length, Event.endobj], ?_, ?_⟩
    · have hstp : stp.output = st.output ++
          ([Event.objHeader st.objectOffsets.length,
            Event.streamDict (st.objectOffsets.length + 1), Event.colorSpace] ++
           evs ++
           [Event.endstream, Event.endobj,
            Event.objHeader (st.objectOffsets.length + 1),
            Event.lengthObj (evs.length + 1), Event.endobj]) ++ suf := by
        rw [hse, hST7, hST5]
        simp
      simp only [hstp]
      simp
    · intro e he
      rcases List.mem_append.mp he with he' | he'
      · exact fontLoop_pageTail (hsm e he')
      · simp only [List.mem_cons, List.not_mem_nil, or_false] at he'
        rcases he' with rfl | rfl | rfl <;> simp [pageTailEvent]
  · show stp.info = st.info
    rw [hinf, hST7, hST5]
  · intro hcanvas hInv
    have hout5 : ST5.output = st.output ++
        ([Event.objHeader st.objectOffsets.length,
          Event.streamDict (st.objectOffsets.length + 1), Event.colorSpace] ++
         evs ++ [Event.endstream, Event.endobj]) := by
      rw [hST5]; simp
    have hfo5 : ST5.fontObjectIds = st.fontObjectIds := by rw [hST5]
    have hfd5 : fontInv ST5 := by
      unfold fontInv
      rw [hout5, hfo5]
      refine fontInvOn_append ?_ hInv
      intro e he
      simp only [List.mem_append, List.mem_cons, List.not_mem_nil, or_false] at he
      rcases he with ((rfl | rfl | rfl) | he') | (rfl | rfl)
      · rfl
      · rfl
      · rfl
      · exact canvas_not_fontDict (hcanvas e he')
      · rfl
      · rfl
    have hout7 : ST7.output = ST5.output ++
        [Event.objHeader (st.objectOffsets.length + 1),
         Event.lengthObj (evs.length + 1), Event.endobj] := by rw [hST7]
    have hfo7 : ST7.fontObjectIds = ST5.fontObjectIds := by rw [hST7]
    have hfd7 : fontInv ST7 := by
      unfold fontInv
      rw [hout7, hfo7]
      refine fontInvOn_append ?_ hfd5
      intro e he
      simp only [List.mem_cons, List.not_mem_nil, or_false] at he
      rcases he with rfl | rfl | rfl <;> rfl
    have hfdp : fontInv stp := hfi hfd7
    show fontInvOn (stp.output ++ _) stp.fontObjectIds
    refine fontInvOn_append ?_ hfdp
    intro e he
    simp only [List.mem_cons, List.not_mem_nil, or_false] at he
    rcases he with rfl | rfl | rfl <;> rfl
  · intro f oid hf
    show lookupFont stp.fontObjectIds f = some oid
    refine hlk f oid ?_
    rw [hST7, hST5]
    exact hf

/-! ### C1 -/

/-- C1: in `render_page` the length object's id always equals the content
stream object's id plus one, matching the provisional `/Length N 0 R`
reference, so `assert!(object_id_length == content_object_id + 1)` never
fires for any callback outcome; on success the output carries the stream
object, the provisional reference and the length object exactly so. -/
theorem renderPage_length_id (st : PdfState) (w h : Rat) :
    (∀ cb, renderPage st cb w h ≠ Except.error PdfErr.assertFail) ∧
    (∀ evs fonts outl, ∃ st' rest,
      renderPage st (some (evs, fonts, outl)) w h = .ok st' ∧
      st'.output = st.output ++
        ([Event.objHeader st.objectOffsets.length,
          Event.streamDict (st.objectOffsets.length + 1), Event.colorSpace] ++
         evs ++
         [Event.endstream, Event.endobj,
          Event.objHeader (st.objectOffsets.length + 1),
          Event.lengthObj (evs.length + 1), Event.endobj]) ++ rest) := by
  constructor
  · intro cb
    cases cb with
    | none =>
      simp [renderPage, renderPageStream_none]
    | some t =>
      obtain ⟨evs, fonts, outl⟩ := t
      obtain ⟨st', heq, -⟩ := renderPage_ok st evs fonts outl w h
      rw [heq]
      simp
  · intro evs fonts outl
    obtain ⟨st', heq, -, ⟨rest, hout, -⟩, -⟩ := renderPage_ok st evs fonts outl w h
    exact ⟨st', rest, heq, hout⟩

/-- C1 (witness). -/
theorem renderPage_length_id_w :
    renderPage pdfNew none 0 0 ≠ Except.error PdfErr.assertFail :=
  (renderPage_length_id pdfNew 0 0).1 none

/-! ### C8 -/

/-- C8: every `write_new_object` allocates the current length of
`object_offsets` as the id and appends exactly one non-negative offset (so
ids stay dense and strictly increasing), and `write_object_with_id` fills a
reserved slot only while it still holds the `-1` placeholder, in place and
exactly once: a second fill of the same slot is a fatal assertion. -/
theorem object_allocation {α : Type} (st : PdfState)
    (content : Nat → PdfState → Except PdfErr (α × PdfState))
    (hpres : ∀ id s a s2, content id s = .ok (a, s2) →
      s2.objectOffsets = s.objectOffsets ∧ ∃ suf, s2.output = s.output ++ suf)
    (id2 : Nat) (c2 : PdfState → Except PdfErr (α × PdfState))
    (hpres2 : ∀ s a s2, c2 s = .ok (a, s2) → s2.objectOffsets = s.objectOffsets) :
    (∀ a st2, writeNewObject st content = .ok (a, st2) →
      st2.objectOffsets = st.objectOffsets ++ [(tell st : Int)] ∧
      0 ≤ (tell st : Int) ∧
      ∃ suf, st2.output = st.output ++
        Event.objHeader st.objectOffsets.length :: suf) ∧
    (∀ a st2, writeObjectWithId st id2 c2 = .ok (a, st2) →
      st.objectOffsets[id2]? = some (-1) ∧
      st2.objectOffsets = st.objectOffsets.set id2 (tell st) ∧
      st2.objectOffsets.length = st.objectOffsets.length ∧
      ∀ (c3 : PdfState → Except PdfErr (α × PdfState)),
        writeObjectWithId st2 id2 c3 = Except.error PdfErr.assertFail) := by
  constructor
  · intro a st2 heq
    rw [writeNewObject, writeObject] at heq
    cases hct : content st.objectOffsets.length
        (emit st (.objHeader st.objectOffsets.length)) with
    | error e => rw [hct] at heq; simp at heq
    | ok p =>
      obtain ⟨a0, s2⟩ := p
      rw [hct] at heq
      simp only [Except.ok.injEq, Prod.mk.injEq] at heq
      obtain ⟨rfl, rfl⟩ := heq
      obtain ⟨hoffs, suf, hsuf⟩ := hpres _ _ _ _ hct
      refine ⟨?_, Int.natCast_nonneg _, ?_⟩
      · show s2.objectOffsets ++ _ = _
        rw [hoffs]
        rfl
      · refine ⟨suf ++ [Event.endobj], ?_⟩
        show s2.output ++ [Event.endobj] = _
        rw [hsuf]
        simp [emit]
  · intro a st2 heq
    rw [writeObjectWithId] at heq
    by_cases hslot : st.objectOffsets[id2]? = some (-1)
    · rw [if_pos hslot, writeObject] at heq
      cases hct : c2 (emit st (.objHeader id2)) with
      | error e => rw [hct] at heq; simp at heq
      | ok p =>
        obtain ⟨a0, s2⟩ := p
        rw [hct] at heq
        simp only [Except.ok.injEq, Prod.mk.injEq] at heq
        obtain ⟨rfl, rfl⟩ := heq
        have hoffs := hpres2 _ _ _ hct
        have hid2 : id2 < st.objectOffsets.length := by
          by_contra hge
          rw [List.getElem?_eq_none (by omega)] at hslot
          simp at hslot
        constructor
        · exact hslot
        · refine ⟨?_, ?_, ?_⟩
          · show s2.objectOffsets.set id2 _ = _
            rw [hoffs]
            rfl
          · show (s2.objectOffsets.set id2 _).length = _
            rw [List.length_set, hoffs]
            rfl
          · intro c3
            have hget : ((s2.objectOffsets.set id2 (tell st : Int)))[id2]? =
                some (tell st : Int) := by
              refine List.getElem?_set_self ?_
              rw [hoffs]
              exact hid2
            have hne : ((tell st : Int)) ≠ (-1 : Int) := by
              have := Int.natCast_nonneg (tell st)
              omega
            rw [writeObjectWithId]
            split
            · rename_i hc
              have hc2 : (s2.objectOffsets.set id2 ((tell st) : Int))[id2]? =
                  some (-1) := hc
              rw [hget] at hc2
              injection hc2 with h
              exact absurd h hne
            · rfl
    · rw [if_neg hslot] at heq
      simp at heq

/-- An object-content writer returning its own id and writing nothing. -/
def c8content : Nat → PdfState → Except PdfErr (Nat × PdfState) :=
  fun id s => .ok (id, s)

/-- A slot-filling content writer writing nothing. -/
def c8fill : PdfState → Except PdfErr (Nat × PdfState) :=
  fun s => .ok (0, s)

/-- The state after filling slot 1 of a fresh document. -/
def c8filled : PdfState :=
  { output := [Event.header, Event.objHeader 1, Event.endobj]
    objectOffsets := [-1, 1, -1]
    pageObjectIds := []
    fontObjectIds := []
    outline := []
    info := [] }

/-- C8 (witness): filling reserved slot 1 of a fresh document succeeds once,
and the second fill of the same slot is the fatal assertion. -/
theorem object_allocation_w :
    writeObjectWithId c8filled 1 c8fill = Except.error PdfErr.assertFail := by
  have hpres : ∀ (id : Nat) (s : PdfState) (a : Nat) (s2 : PdfState),
      c8content id s = Except.ok (a, s2) →
      s2.objectOffsets = s.objectOffsets ∧ ∃ suf, s2.output = s.output ++ suf := by
    intro id s a s2 hok
    injection hok with h
    injection h with h1 h2
    subst h2
    exact ⟨rfl, [], by simp⟩
  have hpres2 : ∀ (s : PdfState) (a : Nat) (s2 : PdfState),
      c8fill s = Except.ok (a, s2) → s2.objectOffsets = s.objectOffsets := by
    intro s a s2 hok
    injection hok with h
    injection h with h1 h2
    subst h2
    rfl
  have h := (object_allocation pdfNew c8content hpres 1 c8fill hpres2).2
    0 c8filled (by rfl)
  exact h.2.2.2 c8fill

/-! ### Helper lemmas: the outline chain -/

/-- The event stream of the outline item loop: item `i` gets id
`parentId + 1 + i`, `/Prev` absent for the first item and otherwise the item's
own id minus one, `/Next` absent for the last item and otherwise the item's
own id plus one. -/
def outlineItemEvents (parentId count : Nat) : Nat → List OutlineItem → List Event
  | _, [] => []
  | i, item :: rest =>
    [Event.objHeader (parentId + 1 + i),
     Event.outlineItemDict item.title item.page parentId
       (if i = 0 then none else some (parentId + i))
       (if i = count - 1 then none else some (parentId + i + 2)),
     Event.endobj] ++ outlineItemEvents parentId count (i + 1) rest

/-- The full outline emission: all items, then the parent object with
`/First`, `/Last` and `/Count`. -/
def outlineChainEvents (parentId count : Nat) (items : List OutlineItem) :
    List Event :=
  outlineItemEvents parentId count 0 items ++
  [Event.objHeader parentId,
   Event.outlinesDict (parentId + 1) (parentId + count) count, Event.endobj]

theorem getElem?_append_middle {α : Type} (L : List α) (x : α) (R : List α) :
    ((L ++ [x]) ++ R)[L.length]? = some x := by
  induction L with
  | nil => simp
  | cons a L ih => simp only [List.cons_append, List.getElem?_cons_succ,
      List.length_cons]; exact ih

theorem set_append_middle {α : Type} (L : List α) (x y : α) (R : List α) :
    ((L ++ [x]) ++ R).set L.length y = (L ++ [y]) ++ R := by
  induction L with
  | nil => simp
  | cons a L _ih => simp

theorem writeOutlineItems_ok :
    ∀ (items : List OutlineItem) (i fAcc lAcc : Nat) (count parentId : Nat)
      (st : PdfState),
    st.objectOffsets.length = parentId + 1 + i →
    count = i + items.length →
    ∃ offs, (∀ o ∈ offs, 0 ≤ o) ∧ offs.length = items.length ∧
      writeOutlineItems items i count parentId fAcc lAcc st =
        .ok ((if items.isEmpty then fAcc else if i = 0 then parentId + 1 else fAcc),
             (if items.isEmpty then lAcc else parentId + count),
             { st with
               output := st.output ++ outlineItemEvents parentId count i items,
               objectOffsets := st.objectOffsets ++ offs }) := by
  intro items
  induction items with
  | nil =>
    intro i fAcc lAcc count parentId st hlen hcount
    refine ⟨[], by simp, by simp, ?_⟩
    simp [writeOutlineItems, outlineItemEvents]
  | cons item rest ih =>
    intro i fAcc lAcc count parentId st hlen hcount
    have hcount2 : count = i + rest.length + 1 := by
      simp only [List.length_cons] at hcount
      omega
    have hwno : writeNewObject st (fun objectId st1 =>
        .ok (objectId, emit st1 (.outlineItemDict item.title item.page parentId
          (if i = 0 then none else some (objectId - 1))
          (if i = count - 1 then none else some (objectId + 1))))) =
      .ok (st.objectOffsets.length,
        { st with
          output := st.output ++ [Event.objHeader st.objectOffsets.length,
            Event.outlineItemDict item.title item.page parentId
              (if i = 0 then none else some (st.objectOffsets.length - 1))
              (if i = count - 1 then none else some (st.objectOffsets.length + 1)),
            Event.endobj],
          objectOffsets := st.objectOffsets ++ [(tell st : Int)] }) := by
      simp [writeNewObject, writeObject, emit]
    obtain ⟨offs, hom, hlenoffs, heq⟩ := ih (i + 1)
      (if i = 0 then st.objectOffsets.length else fAcc)
      (if i = count - 1 then st.objectOffsets.length else lAcc)
      count parentId
      { st with
        output := st.output ++ [Event.objHeader st.objectOffsets.length,
          Event.outlineItemDict item.title item.page parentId
            (if i = 0 then none else some (st.objectOffsets.length - 1))
            (if i = count - 1 then none else some (st.objectOffsets.length + 1)),
          Event.endobj],
        objectOffsets := st.objectOffsets ++ [(tell st : Int)] }
      (by
        simp only [List.length_append, List.length_cons, List.length_nil, hlen]
        omega)
      (by omega)
    refine ⟨(tell st : Int) :: offs, ?_, by simp [hlenoffs], ?_⟩
    · intro o ho
      rcases List.mem_cons.mp ho with rfl | ho'
      · exact Int.natCast_nonneg _
      · exact hom o ho'
    · have hfst : (if rest.isEmpty then (if i = 0 then st.objectOffsets.length
            else fAcc) else if i + 1 = 0 then parentId + 1
            else (if i = 0 then st.objectOffsets.length else fAcc)) =
          (if (item :: rest).isEmpty then fAcc
            else if i = 0 then parentId + 1 else fAcc) := by
        by_cases hi : i = 0 <;> by_cases hr : rest.isEmpty <;>
          simp [hi, hr, hlen]
      have hlst : (if rest.isEmpty then (if i = count - 1 then
            st.objectOffsets.length else lAcc) else parentId + count) =
          (if (item :: rest).isEmpty then lAcc else parentId + count) := by
        by_cases hr : rest.isEmpty
        · have hrl : rest.length = 0 := by
            rw [List.length_eq_zero]
            exact List.isEmpty_iff.mp hr
          have hic : i = count - 1 := by omega
          rw [if_pos hr, if_pos hic, if_neg (by simp)]
          rw [hlen]
          omega
        · rw [if_neg hr, if_neg (by simp)]
      have hev : outlineItemEvents parentId count i (item :: rest) =
          [Event.objHeader (st.objectOffsets.length),
           Event.outlineItemDict item.title item.page parentId
             (if i = 0 then none else some (st.objectOffsets.length - 1))
             (if i = count - 1 then none else some (st.objectOffsets.length + 1)),
           Event.endobj] ++ outlineItemEvents parentId count (i + 1) rest := by
        rw [outlineItemEvents]
        have e1 : parentId + 1 + i = st.objectOffsets.length := hlen.symm
        have e2 : (if i = 0 then none else some (parentId + i)) =
            (if i = 0 then none else some (st.objectOffsets.length - 1)) := by
          by_cases hi : i = 0 <;> simp [hi, hlen]
        have e3 : (if i = count - 1 then none
              else some (parentId + i + 2)) =
            (if i = count - 1 then none
              else some (st.objectOffsets.length + 1)) := by
          by_cases hi : i = count - 1
          · simp [hi]
          · rw [if_neg hi, if_neg hi, hlen]
            congr 1
            omega
        rw [e1, e2, e3]
      simp only [writeOutlineItems, hwno]
      rw [heq, hfst, hlst, hev]
      simp

theorem writeOutline_empty (st : PdfState) (h : st.outline = []) :
    writeOutline st = .ok (none, st) := by
  simp [writeOutline, h]

theorem writeOutline_nonempty (st : PdfState) (h : st.outline ≠ []) :
    ∃ offs v, (∀ o ∈ offs, 0 ≤ o) ∧ 0 ≤ v ∧
      writeOutline st = .ok (some st.objectOffsets.length,
        { st with
          output := st.output ++
            outlineChainEvents st.objectOffsets.length st.outline.length st.outline,
          objectOffsets := (st.objectOffsets ++ [v]) ++ offs,
          outline := [] }) := by
  obtain ⟨offs, hom, hlenoffs, heq⟩ := writeOutlineItems_ok st.outline 0 0 0
    st.outline.length st.objectOffsets.length
    { st with objectOffsets := st.objectOffsets ++ [(-1 : Int)], outline := [] }
    (by simp) (by simp)
  have hcond : ¬ (st.outline.isEmpty = true) := by
    simp [List.isEmpty_iff, h]
  refine ⟨offs,
    ((st.output.length +
      (outlineItemEvents st.objectOffsets.length st.outline.length 0
        st.outline).length : Nat) : Int), hom, Int.natCast_nonneg _, ?_⟩
  simp only [writeOutline]
  rw [if_neg hcond]
  simp only [heq]
  simp only [writeObjectWithId]
  rw [if_pos (getElem?_append_middle st.objectOffsets (-1) offs)]
  simp only [writeObject, emit]
  rw [set_append_middle]
  simp [outlineChainEvents, tell_def, List.isEmpty_iff, h]

theorem outlineItemEvents_no_xref :
    ∀ (items : List OutlineItem) (p c i : Nat) (off : Int),
    Event.xrefEntry off ∉ outlineItemEvents p c i items := by
  intro items
  induction items with
  | nil => intro p c i off; simp [outlineItemEvents]
  | cons item rest ih =>
    intro p c i off
    simp only [outlineItemEvents, List.cons_append, List.mem_cons,
      List.nil_append]
    push_neg
    refine ⟨by simp, by simp, by simp, ?_⟩
    exact ih p c (i + 1) off

theorem outlineItemEvents_no_catalog :
    ∀ (items : List OutlineItem) (p c i : Nat) (oid : Option Nat),
    Event.catalogDict oid ∉ outlineItemEvents p c i items := by
  intro items
  induction items with
  | nil => intro p c i oid; simp [outlineItemEvents]
  | cons item rest ih =>
    intro p c i oid
    simp only [outlineItemEvents, List.cons_append, List.mem_cons,
      List.nil_append]
    push_neg
    refine ⟨by simp, by simp, by simp, ?_⟩
    exact ih p c (i + 1) oid

theorem outlineChainEvents_no_xref (p c : Nat) (items : List OutlineItem)
    (off : Int) : Event.xrefEntry off ∉ outlineChainEvents p c items := by
  simp only [outlineChainEvents, List.mem_append, List.mem_cons,
    List.not_mem_nil, or_false]
  push_neg
  exact ⟨outlineItemEvents_no_xref items p c 0 off, by simp, by simp, by simp⟩

theorem outlineChainEvents_no_catalog (p c : Nat) (items : List OutlineItem)
    (oid : Option Nat) : Event.catalogDict oid ∉ outlineChainEvents p c items := by
  simp only [outlineChainEvents, List.mem_append, List.mem_cons,
    List.not_mem_nil, or_false]
  push_neg
  exact ⟨outlineItemEvents_no_catalog items p c 0 oid, by simp, by simp, by simp⟩

/-! ### Helper lemmas: finish -/

theorem finishPages_eq (st : PdfState) :
    finishPages st = if st.objectOffsets[2]? = some (-1)
      then .ok { st with
        output := st.output ++ [Event.objHeader 2,
          Event.pagesDict st.pageObjectIds.length st.pageObjectIds, Event.endobj],
        objectOffsets := st.objectOffsets.set 2 (tell st) }
      else .error .assertFail := by
  rw [finishPages, writeObjectWithId]
  by_cases hc : st.objectOffsets[2]? = some (-1)
  · rw [if_pos hc, if_pos hc]
    simp [writeObject, emit]
  · rw [if_neg hc, if_neg hc]

theorem finishInfo_empty (st : PdfState) (h : st.info = []) :
    finishInfo st = .ok (none, st) := by
  simp [finishInfo, h]

theorem finishInfo_nonempty (st : PdfState) (h : st.info ≠ []) :
    finishInfo st = .ok (some st.objectOffsets.length,
      { st with
        info := [],
        output := st.output ++ [Event.objHeader st.objectOffsets.length,
          Event.infoDict st.info, Event.endobj],
        objectOffsets := st.objectOffsets ++ [(tell st : Int)] }) := by
  rw [finishInfo, if_neg (by simp [List.isEmpty_iff, h])]
  simp [writeNewObject, writeObject, emit, tell_def]

theorem finishCatalog_eq (st : PdfState) (outlinesId : Option Nat) :
    finishCatalog st outlinesId = if st.objectOffsets[1]? = some (-1)
      then .ok { st with
        output := st.output ++ [Event.objHeader 1,
          Event.catalogDict outlinesId, Event.endobj],
        objectOffsets := st.objectOffsets.set 1 (tell st) }
      else .error .assertFail := by
  rw [finishCatalog, writeObjectWithId]
  by_cases hc : st.objectOffsets[1]? = some (-1)
  · rw [if_pos hc, if_pos hc]
    simp [writeObject, emit]
  · rw [if_neg hc, if_neg hc]

theorem writeXrefEntries_ok :
    ∀ (l : List Int) (st : PdfState), (∀ o ∈ l, 0 ≤ o) →
    writeXrefEntries l st =
      .ok { st with output := st.output ++ l.map Event.xrefEntry } := by
  intro l
  induction l with
  | nil => intro st h; simp [writeXrefEntries]
  | cons o rest ih =>
    intro st h
    rw [writeXrefEntries, if_pos (h o (by simp))]
    rw [ih (emit st (.xrefEntry o)) (fun x hx => h x (by simp [hx]))]
    simp [emit]

theorem writeXrefEntries_shape :
    ∀ (l : List Int) (st st2 : PdfState), writeXrefEntries l st = .ok st2 →
    (∀ o ∈ l, 0 ≤ o) ∧
    st2 = { st with output := st.output ++ l.map Event.xrefEntry } := by
  intro l
  induction l with
  | nil =>
    intro st st2 h
    simp only [writeXrefEntries, Except.ok.injEq] at h
    refine ⟨by simp, ?_⟩
    rw [← h]
    simp
  | cons o rest ih =>
    intro st st2 h
    rw [writeXrefEntries] at h
    by_cases ho : 0 ≤ o
    · rw [if_pos ho] at h
      obtain ⟨hrest, hst⟩ := ih _ _ h
      refine ⟨?_, ?_⟩
      · intro x hx
        rcases List.mem_cons.mp hx with rfl | hx'
        · exact ho
        · exact hrest x hx'
      · rw [hst]
        simp [emit]
    · rw [if_neg ho] at h
      exact absurd h (by simp)

theorem finishXref_ok (st : PdfState) (infoId : Option Nat)
    (h : ∀ o ∈ st.objectOffsets.drop 1, 0 ≤ o) :
    finishXref st infoId = .ok { st with output := st.output ++
      ([Event.xrefHeader st.objectOffsets.length] ++
       (st.objectOffsets.drop 1).map Event.xrefEntry ++
       [Event.trailerDict st.objectOffsets.length 1 infoId,
        Event.startxref (tell st)]) } := by
  simp only [finishXref, emit]
  rw [writeXrefEntries_ok (st.objectOffsets.drop 1)
    { st with output := st.output ++ [Event.xrefHeader st.objectOffsets.length] } h]
  simp [tell_def]

theorem finishXref_shape {st st2 : PdfState} {infoId : Option Nat}
    (hx : finishXref st infoId = .ok st2) :
    (∀ o ∈ st.objectOffsets.drop 1, 0 ≤ o) ∧
    st2 = { st with output := st.output ++
      ([Event.xrefHeader st.objectOffsets.length] ++
       (st.objectOffsets.drop 1).map Event.xrefEntry ++
       [Event.trailerDict st.objectOffsets.length 1 infoId,
        Event.startxref (tell st)]) } := by
  simp only [finishXref, emit] at hx
  cases hw : writeXrefEntries (st.objectOffsets.drop 1)
      { st with output := st.output ++ [Event.xrefHeader st.objectOffsets.length] } with
  | error e =>
    rw [hw] at hx
    exact absurd hx (by simp)
  | ok stt =>
    rw [hw] at hx
    obtain ⟨hge, hstt⟩ := writeXrefEntries_shape _ _ _ hw
    refine ⟨hge, ?_⟩
    simp only [Except.ok.injEq] at hx
    rw [← hx, hstt]
    simp [emit, tell_def]

theorem finishInfo_cases (st : PdfState) :
    ∃ infoId st2 B, finishInfo st = .ok (infoId, st2) ∧
      st2.output = st.output ++ B ∧
      (∀ off : Int, Event.xrefEntry off ∉ B) ∧
      (∀ oid : Option Nat, Event.catalogDict oid ∉ B) ∧
      (∃ app, st2.objectOffsets = st.objectOffsets ++ app ∧ ∀ o ∈ app, 0 ≤ o) ∧
      st2.outline = st.outline ∧ st2.pageObjectIds = st.pageObjectIds := by
  by_cases h : st.info = []
  · exact ⟨none, st, [], finishInfo_empty st h, by simp, by simp, by simp,
      ⟨[], by simp, by simp⟩, rfl, rfl⟩
  · refine ⟨some st.objectOffsets.length,
      { st with
        info := [],
        output := st.output ++ [Event.objHeader st.objectOffsets.length,
          Event.infoDict st.info, Event.endobj],
        objectOffsets := st.objectOffsets ++ [(tell st : Int)] },
      [Event.objHeader st.objectOffsets.length,
        Event.infoDict st.info, Event.endobj],
      finishInfo_nonempty st h, rfl, ?_, ?_,
      ⟨[(tell st : Int)], rfl, ?_⟩, rfl, rfl⟩
    · intro off
      simp
    · intro oid
      simp
    · intro o ho
      rcases List.mem_cons.mp ho with rfl | ho'
      · exact Int.natCast_nonneg _
      · simp at ho'

theorem writeOutline_cases (st : PdfState) :
    ∃ outlinesId st3 C, writeOutline st = .ok (outlinesId, st3) ∧
      st3.output = st.output ++ C ∧
      (∀ off : Int, Event.xrefEntry off ∉ C) ∧
      (∀ oid : Option Nat, Event.catalogDict oid ∉ C) ∧
      (∃ app, st3.objectOffsets = st.objectOffsets ++ app ∧ ∀ o ∈ app, 0 ≤ o) ∧
      st3.pageObjectIds = st.pageObjectIds := by
  by_cases h : st.outline = []
  · exact ⟨none, st, [], writeOutline_empty st h, by simp, by simp, by simp,
      ⟨[], by simp, by simp⟩, rfl⟩
  · obtain ⟨offs, v, hom, hv, heq⟩ := writeOutline_nonempty st h
    refine ⟨some st.objectOffsets.length, _,
      outlineChainEvents st.objectOffsets.length st.outline.length st.outline,
      heq, rfl,
      (fun off => outlineChainEvents_no_xref _ _ _ off),
      (fun oid => outlineChainEvents_no_catalog _ _ _ oid),
      ⟨v :: offs, by simp, ?_⟩, rfl⟩
    intro o ho
    rcases List.mem_cons.mp ho with rfl | ho'
    · exact hv
    · exact hom o ho'

/-! ### C6 -/

/-- C6: with outline items collected, `write_outline` reserves the parent id
first (the items get the following consecutive ids), writes each item with
`/Prev` absent for the first item and otherwise the item's id minus one,
`/Next` absent for the last item and otherwise the item's id plus one, then
writes the parent with `/First` the first item's id, `/Last` the last item's
id and `/Count` the number of items; with no items, no outline object is
written and the catalog of `finish` carries no `/Outlines` key. -/
theorem outline_chain_structure (st : PdfState) :
    (st.outline = [] → writeOutline st = .ok (none, st) ∧
      (∀ st', finish st = .ok st' → ∃ suf, st'.output = st.output ++ suf ∧
        Event.catalogDict none ∈ suf ∧
        ∀ oid, Event.catalogDict (some oid) ∉ suf)) ∧
    (st.outline ≠ [] →
      ∃ st', writeOutline st = .ok (some st.objectOffsets.length, st') ∧
        st'.output = st.output ++
          outlineChainEvents st.objectOffsets.length st.outline.length st.outline ∧
        st'.outline = []) := by
  constructor
  · intro h
    refine ⟨writeOutline_empty st h, ?_⟩
    intro st' hf
    rw [finish] at hf
    cases hA : finishPages st with
    | error e =>
      simp only [hA] at hf
      exact absurd hf (by simp)
    | ok st1 =>
      simp only [hA] at hf
      have hAe := finishPages_eq st
      rw [hA] at hAe
      by_cases hc2 : st.objectOffsets[2]? = some (-1)
      case neg =>
        rw [if_neg hc2] at hAe
        exact absurd hAe (by simp)
      rw [if_pos hc2] at hAe
      injection hAe with hst1
      obtain ⟨infoId, st2, B, hB, hBout, hBx, hBc, -, hBol, -⟩ :=
        finishInfo_cases st1
      simp only [hB] at hf
      have hol2 : st2.outline = [] := by
        rw [hBol, hst1]
        exact h
      simp only [writeOutline_empty st2 hol2] at hf
      cases hC : finishCatalog st2 none with
      | error e =>
        simp only [hC] at hf
        exact absurd hf (by simp)
      | ok st4 =>
        simp only [hC] at hf
        have hCe := finishCatalog_eq st2 none
        rw [hC] at hCe
        by_cases hc1 : st2.objectOffsets[1]? = some (-1)
        case neg =>
          rw [if_neg hc1] at hCe
          exact absurd hCe (by simp)
        rw [if_pos hc1] at hCe
        injection hCe with hst4
        obtain ⟨hge, hst'⟩ := finishXref_shape hf
        have nA : ∀ oid : Nat, Event.catalogDict (some oid) ∉
            [Event.objHeader 2,
             Event.pagesDict st.pageObjectIds.length st.pageObjectIds,
             Event.endobj] := by
          intro oid
          simp
        have nC : ∀ oid : Nat, Event.catalogDict (some oid) ∉
            [Event.objHeader 1, Event.catalogDict none, Event.endobj] := by
          intro oid
          simp
        have nD : ∀ oid : Nat, Event.catalogDict (some oid) ∉
            ([Event.xrefHeader st4.objectOffsets.length] ++
             (st4.objectOffsets.drop 1).map Event.xrefEntry ++
             [Event.trailerDict st4.objectOffsets.length 1 infoId,
              Event.startxref (tell st4)]) := by
          intro oid hmem
          rcases List.mem_append.mp hmem with h1 | h1
          · rcases List.mem_append.mp h1 with h2 | h2
            · simp at h2
            · rcases List.mem_map.mp h2 with ⟨x, -, hx⟩
              simp at hx
          · simp at h1
        refine ⟨[Event.objHeader 2,
            Event.pagesDict st.pageObjectIds.length st.pageObjectIds,
            Event.endobj] ++ B ++
          [Event.objHeader 1, Event.catalogDict none, Event.endobj] ++
          ([Event.xrefHeader st4.objectOffsets.length] ++
           (st4.objectOffsets.drop 1).map Event.xrefEntry ++
           [Event.trailerDict st4.objectOffsets.length 1 infoId,
            Event.startxref (tell st4)]), ?_, ?_, ?_⟩
        · rw [hst', hst4, hBout, hst1]
          simp
        · simp
        · intro oid hmem
          rcases List.mem_append.mp hmem with h12 | hD
          · rcases List.mem_append.mp h12 with h1 | hC3
            · rcases List.mem_append.mp h1 with hA1 | hB2
              · exact nA oid hA1
              · exact hBc _ hB2
            · exact nC oid hC3
          · exact nD oid hD
  · intro h
    obtain ⟨offs, v, hom, hv, heq⟩ := writeOutline_nonempty st h
    exact ⟨_, heq, rfl, rfl⟩

/-- A fresh document carrying three collected outline items. -/
def st6w : PdfState :=
  { output := [Event.header]
    objectOffsets := [-1, -1, -1]
    pageObjectIds := []
    fontObjectIds := []
    outline := [{ title := "a", page := some 5 }, { title := "b", page := some 5 },
      { title := "c", page := some 6 }]
    info := [] }

/-- Concrete check that the three-item outline chain comes out as specified. -/
def c6check : Bool :=
  match writeOutline st6w with
  | .ok (some p, st') =>
    decide (p = 3 ∧
      st'.output = st6w.output ++ outlineChainEvents 3 3 st6w.outline ∧
      st'.outline = [])
  | _ => false

/-- C6 (witness): three outline items produce parent id 3, item ids 4, 5, 6
with the doubly linked `/Prev`/`/Next` chain, and `/First 4`, `/Last 6`,
`/Count 3`. -/
theorem outline_chain_structure_w : c6check = true := by
  obtain ⟨st', h1, h2, h3⟩ := (outline_chain_structure st6w).2 (by decide)
  unfold c6check
  rw [h1]
  simp only [decide_eq_true_eq]
  exact ⟨rfl, h2, h3⟩

/-! ### Reachable-state invariants -/

theorem reachable_offsets (st : PdfState) (h : Reachable st) :
    (∃ rest, st.objectOffsets = -1 :: -1 :: -1 :: rest ∧ ∀ o ∈ rest, 0 ≤ o) ∧
    (∀ off : Int, Event.xrefEntry off ∉ st.output) := by
  induction h with
  | new =>
    refine ⟨⟨[], rfl, by simp⟩, ?_⟩
    intro off
    simp [pdfNew]
  | set st k v hr ih =>
    exact ih
  | render s1 s2 evs fonts outl w hgt hr hcanvas hrp ih =>
    obtain ⟨st'', heq, ⟨offs, hoe, hom⟩, ⟨restE, houtE, hrestE⟩, -, -, -⟩ :=
      renderPage_ok s1 evs fonts outl w hgt
    rw [heq] at hrp
    injection hrp with h2
    subst h2
    obtain ⟨⟨rest, hro, hrom⟩, hnx⟩ := ih
    constructor
    · refine ⟨rest ++ offs, ?_, ?_⟩
      · rw [hoe, hro]
        simp
      · intro o ho
        rcases List.mem_append.mp ho with h' | h'
        · exact hrom o h'
        · exact hom o h'
    · intro off hmem
      rw [houtE] at hmem
      rcases List.mem_append.mp hmem with h1 | h1
      case inr =>
        exact pageTail_not_xref (hrestE _ h1) off rfl
      rcases List.mem_append.mp h1 with h2' | h2'
      · exact hnx off h2'
      · rcases List.mem_append.mp h2' with h3 | h3
        · rcases List.mem_append.mp h3 with h4 | h4
          · simp at h4
          · exact canvas_not_xref (hcanvas _ h4) off rfl
        · simp at h3

theorem reachable_fontInv (st : PdfState) (h : Reachable st) : fontInv st := by
  induction h with
  | new =>
    intro f
    rfl
  | set st k v hr ih =>
    exact ih
  | render s1 s2 evs fonts outl w hgt hr hcanvas hrp ih =>
    obtain ⟨st'', heq, -, -, -, hfi, -⟩ := renderPage_ok s1 evs fonts outl w hgt
    rw [heq] at hrp
    injection hrp with h2
    subst h2
    exact hfi hcanvas ih

/-! ### C3 -/

/-- C3: in every reachable document state the emitted font objects are
exactly one per identity present in `font_object_ids` (lazily created the
first time a font is used); a successful `render_page` never overwrites an
existing entry, and the font loop resolves an already-recorded identity to
its recorded object id in the page's resource table. -/
theorem font_dedup_invariant (st : PdfState) (h : Reachable st) :
    (∀ f, countFont st.output f =
      if (lookupFont st.fontObjectIds f).isSome then 1 else 0) ∧
    (∀ st' evs fonts outl (w hgt : Rat), (∀ e ∈ evs, isCanvasEvent e = true) →
      renderPage st (some (evs, fonts, outl)) w hgt = .ok st' →
      ∀ f oid, lookupFont st.fontObjectIds f = some oid →
        lookupFont st'.fontObjectIds f = some oid) ∧
    (∀ fonts acc refs st2, processFonts fonts acc st = .ok (refs, st2) →
      ∀ src fr oid, (src, fr) ∈ fonts →
        lookupFont st.fontObjectIds src = some oid → (fr, oid) ∈ refs) := by
  refine ⟨reachable_fontInv st h, ?_, ?_⟩
  · intro st' evs fonts outl w hgt hcanvas hrp f oid hl
    obtain ⟨st'', heq, -, -, -, -, hlk⟩ := renderPage_ok st evs fonts outl w hgt
    rw [heq] at hrp
    injection hrp with h2
    subst h2
    exact hlk f oid hl
  · intro fonts acc refs st2 hpf src fr oid hmem hl
    obtain ⟨refs', st2', hpf', -, -, -, -, -, -, -, -, hfonts⟩ :=
      processFonts_ok fonts acc st
    rw [hpf'] at hpf
    injection hpf with h2
    rw [Prod.mk.injEq] at h2
    obtain ⟨rfl, rfl⟩ := h2
    exact hfonts src fr oid hmem hl

/-- The Courier font resource identity (WinAnsi base encoding). -/
def fontC3 : Font := { name := "Courier", enc := "WinAnsiEncoding" }

/-- The document state after one rendered page using `fontC3` once. -/
def st1C3 : PdfState :=
  { output := [Event.header, Event.objHeader 3, Event.streamDict 4,
      Event.colorSpace, Event.endstream, Event.endobj, Event.objHeader 4,
      Event.lengthObj 1, Event.endobj, Event.objHeader 5,
      Event.fontDict "Courier" "WinAnsiEncoding", Event.endobj,
      Event.objHeader 6, Event.pageDict 2 [(0, 5)] 0 0 3, Event.endobj]
    objectOffsets := [-1, -1, -1, 1, 6, 9, 12]
    pageObjectIds := [6]
    fontObjectIds := [(fontC3, 5)]
    outline := []
    info := [] }

/-- C3 (witness): after one page using Courier, exactly one font object for
that identity has been written. -/
theorem font_dedup_invariant_w : countFont st1C3.output fontC3 = 1 := by
  have hre : renderPage pdfNew (some ([], [(fontC3, 0)], [])) 0 0 =
      .ok st1C3 := by decide
  have hR : Reachable st1C3 :=
    Reachable.render pdfNew st1C3 [] [(fontC3, 0)] [] 0 0 Reachable.new
      (by simp) hre
  have h1 := (font_dedup_invariant st1C3 hR).1 fontC3
  rw [h1]
  rfl

/-! ### C2 -/

/-- C2: from any state reachable by `new` and successful `set_*` /
`render_page` calls, `finish` succeeds: every object slot beyond the free
entry ends up with a non-negative offset (the reserved catalog, page-tree and
outline-parent slots are filled during `finish`), so the
`assert!(offset >= 0)` never fires and every emitted xref line carries a
non-negative offset. -/
theorem finish_xref_offsets (st : PdfState) (h : Reachable st) :
    ∃ st', finish st = .ok st' ∧
      ∀ off : Int, Event.xrefEntry off ∈ st'.output → 0 ≤ off := by
  obtain ⟨⟨rest, hro, hrom⟩, hnx⟩ := reachable_offsets st h
  have hc2 : st.objectOffsets[2]? = some (-1) := by rw [hro]; simp
  have hA : finishPages st = .ok
      { st with
        output := st.output ++ [Event.objHeader 2,
          Event.pagesDict st.pageObjectIds.length st.pageObjectIds, Event.endobj],
        objectOffsets := st.objectOffsets.set 2 (tell st) } := by
    rw [finishPages_eq, if_pos hc2]
  obtain ⟨infoId, st2, B, hB, hBout, hBx, hBc, ⟨appB, hBoe, hBom⟩, hBol, -⟩ :=
    finishInfo_cases { st with
      output := st.output ++ [Event.objHeader 2,
        Event.pagesDict st.pageObjectIds.length st.pageObjectIds, Event.endobj],
      objectOffsets := st.objectOffsets.set 2 (tell st) }
  obtain ⟨outlinesId, st3, C, hC, hCout, hCx, hCc, ⟨appC, hCoe, hCom⟩, -⟩ :=
    writeOutline_cases st2
  have hset2 : st.objectOffsets.set 2 ((tell st : Int)) =
      -1 :: -1 :: ((tell st : Int)) :: rest := by
    rw [hro]
    rfl
  have hoffs3 : st3.objectOffsets =
      -1 :: -1 :: ((tell st : Int)) :: ((rest ++ appB) ++ appC) := by
    rw [hCoe, hBoe]
    show (st.objectOffsets.set 2 _ ++ appB) ++ appC = _
    rw [hset2]
    simp
  have hc1 : st3.objectOffsets[1]? = some (-1) := by rw [hoffs3]; simp
  have hD : finishCatalog st3 outlinesId = .ok
      { st3 with
        output := st3.output ++ [Event.objHeader 1,
          Event.catalogDict outlinesId, Event.endobj],
        objectOffsets := st3.objectOffsets.set 1 (tell st3) } := by
    rw [finishCatalog_eq, if_pos hc1]
  have hSTDoffs : st3.objectOffsets.set 1 ((tell st3 : Int)) =
      -1 :: ((tell st3 : Int)) :: ((tell st : Int)) ::
        ((rest ++ appB) ++ appC) := by
    rw [hoffs3]
    rfl
  have hdrop : ∀ o ∈ ({ st3 with
      output := st3.output ++ [Event.objHeader 1,
        Event.catalogDict outlinesId, Event.endobj],
      objectOffsets := st3.objectOffsets.set 1 (tell st3) } :
        PdfState).objectOffsets.drop 1, 0 ≤ o := by
    show ∀ o ∈ (st3.objectOffsets.set 1 ((tell st3 : Int))).drop 1, 0 ≤ o
    rw [hSTDoffs]
    intro o ho
    have hdrop1 : ((-1 : Int) :: ((tell st3 : Int)) :: ((tell st : Int)) ::
        ((rest ++ appB) ++ appC)).drop 1 =
        ((tell st3 : Int)) :: ((tell st : Int)) :: ((rest ++ appB) ++ appC) := rfl
    rw [hdrop1] at ho
    rcases List.mem_cons.mp ho with rfl | ho
    · exact Int.natCast_nonneg _
    rcases List.mem_cons.mp ho with rfl | ho
    · exact Int.natCast_nonneg _
    rcases List.mem_append.mp ho with ho' | ho'
    · rcases List.mem_append.mp ho' with h1 | h1
      · exact hrom o h1
      · exact hBom o h1
    · exact hCom o ho'
  have hE := finishXref_ok { st3 with
      output := st3.output ++ [Event.objHeader 1,
        Event.catalogDict outlinesId, Event.endobj],
      objectOffsets := st3.objectOffsets.set 1 (tell st3) } infoId hdrop
  have hstep : finish st = finishXref { st3 with
      output := st3.output ++ [Event.objHeader 1,
        Event.catalogDict outlinesId, Event.endobj],
      objectOffsets := st3.objectOffsets.set 1 (tell st3) } infoId := by
    rw [finish]
    simp only [hA, hB, hC, hD]
  refine ⟨_, hstep.trans hE, ?_⟩
  intro off hmem
  rcases List.mem_append.mp hmem with h1 | h1
  · rcases List.mem_append.mp h1 with h2 | h2
    · rw [hCout] at h2
      rcases List.mem_append.mp h2 with h3 | h3
      · rw [hBout] at h3
        rcases List.mem_append.mp h3 with h4 | h4
        · rcases List.mem_append.mp h4 with h5 | h5
          · exact absurd h5 (hnx off)
          · simp at h5
        · exact absurd h4 (hBx off)
      · exact absurd h3 (hCx off)
    · simp at h2
  · rcases List.mem_append.mp h1 with h2 | h2
    · rcases List.mem_append.mp h2 with h3 | h3
      · simp at h3
      · rcases List.mem_map.mp h3 with ⟨o, hoin, hoeq⟩
        injection hoeq with hoo
        subst hoo
        exact hdrop o hoin
    · simp at h2

/-- Witness for C2: the hypothesis holds for the freshly created document
(`Reachable.new`), where `finish` indeed succeeds with non-negative xref
offsets only. -/
theorem finish_xref_offsets_w :
    ∃ st', finish pdfNew = Except.ok st' ∧
      ∀ off : Int, Event.xrefEntry off ∈ st'.output → 0 ≤ off :=
  finish_xref_offsets pdfNew Reachable.new
